import Mathlib

/-!
Verification development for the IMDB CapsNet repository
(`imdb_capsulenet.py` plus its `capsulelayers` collaborator module).

Shallow embedding conventions:
* Tensors are embedded as `List ℚ` / `List (List ℚ)` (batch-major) or as
  functions `Fin n → ℚ` where fixed shapes matter.
* Keras backend ops (`K.sum(·, 1)`, `K.mean`, `K.maximum`, `K.square`)
  become the corresponding row-sum / mean / max / square operations.
* Components that live in `capsulelayers.py` (squash, CapsuleLayer with its
  dynamic routing, Mask, PrimaryCap) are not under `src/`; they are modelled
  from the specification and marked `Modelled from the spec:` in their
  doc comments.
-/

namespace ImdbCapsnet

/-! ## Module constants (imdb_capsulenet.py lines 16-18) -/

def max_features : ℕ := 5000

def maxlen : ℕ := 400

def embed_dim : ℕ := 50

/-! ## Margin loss (imdb_capsulenet.py lines 71-81)

`L = y_true * K.square(K.maximum(0., 0.9 - y_pred))
     + 0.5 * (1 - y_true) * K.square(K.maximum(0., y_pred - 0.1))`
then `K.mean(K.sum(L, 1))`. -/

/-- The elementwise formula of `L` in `margin_loss`:
`y_true * K.square(K.maximum(0., 0.9 - y_pred)) +
 0.5 * (1 - y_true) * K.square(K.maximum(0., y_pred - 0.1))`,
with `K.square x = x * x`. -/
def marginTerm (t p : ℚ) : ℚ :=
  t * (max 0 (9/10 - p) * max 0 (9/10 - p)) +
    1/2 * (1 - t) * (max 0 (p - 1/10) * max 0 (p - 1/10))

/-- `margin_loss(y_true, y_pred)` from the source: build the elementwise
tensor `L`, sum it along axis 1 (classes), and take the mean of the
resulting batch vector. -/
def margin_loss (y_true y_pred : List (List ℚ)) : ℚ :=
  let L := List.zipWith (List.zipWith marginTerm) y_true y_pred
  let rowSums := L.map List.sum
  rowSums.sum / (rowSums.length : ℚ)

/-- The specification's phrasing of the margin loss: the batch mean of the
per-example sum over classes of
`y_true * max(0, 0.9 - y_pred)^2 + 0.5 * (1 - y_true) * max(0, y_pred - 0.1)^2`. -/
def marginLossSpec (y_true y_pred : List (List ℚ)) : ℚ :=
  (List.zipWith
      (fun tr pr =>
        (List.zipWith
            (fun t p =>
              t * (max 0 (9/10 - p)) ^ 2 + 1/2 * (1 - t) * (max 0 (p - 1/10)) ^ 2)
            tr pr).sum)
      y_true y_pred).sum / (y_true.length : ℚ)

lemma marginTerm_eq_pow (t p : ℚ) :
    marginTerm t p =
      t * (max 0 (9/10 - p)) ^ 2 + 1/2 * (1 - t) * (max 0 (p - 1/10)) ^ 2 := by
  unfold marginTerm
  ring

/-- C2: the source `margin_loss` coincides with the batch-mean-of-row-sums
formula of the spec. -/
theorem margin_loss_eq_spec (y_true y_pred : List (List ℚ))
    (_h01 : ∀ r ∈ y_true, ∀ x ∈ r, x = 0 ∨ x = 1)
    (hlen : y_true.length = y_pred.length) :
    margin_loss y_true y_pred = marginLossSpec y_true y_pred := by
  have hfun :
      marginTerm = fun t p =>
        t * (max 0 (9/10 - p)) ^ 2 + 1/2 * (1 - t) * (max 0 (p - 1/10)) ^ 2 :=
    funext fun t => funext fun p => marginTerm_eq_pow t p
  simp only [margin_loss, marginLossSpec, hfun, List.map_zipWith, List.length_map,
    List.length_zipWith, ← hlen, min_self]

/-- Witness for C2 at a concrete binary batch. -/
theorem margin_loss_eq_spec_witness :
    margin_loss [[1, 0], [0, 1]] [[3/4, 1/5], [1/2, 1/2]] =
      marginLossSpec [[1, 0], [0, 1]] [[3/4, 1/5], [1/2, 1/2]] :=
  margin_loss_eq_spec _ _ (by norm_num) (by norm_num)

lemma marginTerm_one_one : marginTerm 1 1 = 0 := by
  unfold marginTerm
  norm_num

lemma marginTerm_zero_zero : marginTerm 0 0 = 0 := by
  unfold marginTerm
  norm_num

lemma row_sum_zero {r s : List ℚ}
    (h : List.Forall₂ (fun t p => (t = 1 ∧ p = 1) ∨ (t = 0 ∧ p = 0)) r s) :
    (List.zipWith marginTerm r s).sum = 0 := by
  induction h with
  | nil => simp
  | cons hd _tl ih =>
      rcases hd with ⟨ht, hp⟩ | ⟨ht, hp⟩ <;>
        simp [ht, hp, marginTerm_one_one, marginTerm_zero_zero, ih]

/-- C6: (a) the margin loss vanishes exactly on perfect binary predictions
(`y_true = 1 → y_pred = 1`, `y_true = 0 → y_pred = 0` at every entry);
(b) for a positive class the per-element loss strictly grows as the
predicted length moves downward past the 0.9 threshold; (c) for a negative
class it strictly grows as the predicted length moves upward past the 0.1
threshold. -/
theorem margin_loss_zero_and_monotone :
    (∀ y_true y_pred : List (List ℚ),
        List.Forall₂
          (List.Forall₂ (fun t p => (t = 1 ∧ p = 1) ∨ (t = 0 ∧ p = 0)))
          y_true y_pred →
        margin_loss y_true y_pred = 0) ∧
    (∀ p q : ℚ, p < q → q ≤ 9/10 → marginTerm 1 q < marginTerm 1 p) ∧
    (∀ p q : ℚ, 1/10 ≤ p → p < q → marginTerm 0 p < marginTerm 0 q) := by
  refine ⟨?_, ?_, ?_⟩
  · intro y_true y_pred h
    unfold margin_loss
    have hz : ((List.zipWith (List.zipWith marginTerm) y_true y_pred).map List.sum).sum
        = 0 := by
      induction h with
      | nil => simp
      | cons hd _tl ih => simp [row_sum_zero hd, ih]
    simp [hz]
  · intro p q hpq hq
    unfold marginTerm
    rw [max_eq_right (by linarith : (0:ℚ) ≤ 9/10 - q),
      max_eq_right (by linarith : (0:ℚ) ≤ 9/10 - p)]
    have ha : (0:ℚ) ≤ 9/10 - q := by linarith
    have hb : 9/10 - q < 9/10 - p := by linarith
    nlinarith
  · intro p q hp hpq
    unfold marginTerm
    rw [max_eq_right (by linarith : (0:ℚ) ≤ p - 1/10),
      max_eq_right (by linarith : (0:ℚ) ≤ q - 1/10)]
    have ha : (0:ℚ) ≤ p - 1/10 := by linarith
    have hb : p - 1/10 < q - 1/10 := by linarith
    nlinarith

/-- Witness for C6 at concrete inputs: a perfectly predicted binary batch
has zero loss, and two concrete strict monotonicity instances. -/
theorem margin_loss_zero_and_monotone_witness :
    margin_loss [[1, 0]] [[1, 0]] = 0 ∧
      marginTerm 1 (1/2) < marginTerm 1 0 ∧
      marginTerm 0 (1/2) < marginTerm 0 1 :=
  ⟨margin_loss_zero_and_monotone.1 _ _
      (List.Forall₂.cons
        (List.Forall₂.cons (Or.inl ⟨rfl, rfl⟩)
          (List.Forall₂.cons (Or.inr ⟨rfl, rfl⟩) List.Forall₂.nil))
        List.Forall₂.nil),
    margin_loss_zero_and_monotone.2.1 0 (1/2) (by norm_num) (by norm_num),
    margin_loss_zero_and_monotone.2.2 (1/2) 1 (by norm_num) (by norm_num)⟩

/-! ## Test accuracy (imdb_capsulenet.py lines 120-126 and 138-144)

`score = np.mean(np.equal(y_test, np.array(np.round(y_pred).flatten())))` -/

/-- `np.round`: round half to even (banker's rounding), as NumPy does. -/
def npRound (x : ℚ) : ℚ :=
  let f := Int.floor x
  let r := x - f
  if r < 1/2 then (f : ℚ)
  else if 1/2 < r then ((f + 1 : ℤ) : ℚ)
  else if f % 2 = 0 then (f : ℚ) else ((f + 1 : ℤ) : ℚ)

/-- The score computed by both `train` and `test`:
`np.mean(np.equal(y_test, np.round(y_pred).flatten()))` — round the
prediction matrix elementwise, flatten it, compare elementwise with the
label vector, and take the mean of the resulting 0/1 indicators. -/
def testScore (y_test : List ℚ) (y_pred : List (List ℚ)) : ℚ :=
  let flat := (y_pred.map (fun r => r.map npRound)).flatten
  let eqs := List.zipWith (fun a b => if a = b then (1 : ℚ) else 0) y_test flat
  eqs.sum / (eqs.length : ℚ)

/-- The claim's phrasing: the mean over examples of the indicator that the
binary label equals the rounded capsule-length prediction of that example
(each example's prediction row holding a single capsule length). -/
def scoreByExample (y_test : List ℚ) (y_pred : List (List ℚ)) : ℚ :=
  (List.zipWith (fun a r => if a = npRound r.headI then (1 : ℚ) else 0)
      y_test y_pred).sum / (y_test.length : ℚ)

lemma flatten_singleton_rows (y_pred : List (List ℚ))
    (hrow : ∀ r ∈ y_pred, r.length = 1) :
    (y_pred.map (fun r => r.map npRound)).flatten =
      y_pred.map (fun r => npRound r.headI) := by
  induction y_pred with
  | nil => simp
  | cons r rest ih =>
      have hr : r.length = 1 := hrow r (List.mem_cons_self r rest)
      obtain ⟨x, hx⟩ : ∃ x, r = [x] := by
        cases r with
        | nil => simp at hr
        | cons a s =>
            cases s with
            | nil => exact ⟨a, rfl⟩
            | cons b t => simp at hr
      subst hx
      simp only [List.map_cons, List.flatten_cons, List.map_map]
      rw [ih (fun r hrm => hrow r (List.mem_cons_of_mem _ hrm))]
      simp

/-- C8: the rounding-based score of the source equals the mean over
examples of the indicator that the binary label equals the rounded,
flattened capsule-length prediction. -/
theorem testScore_eq_scoreByExample (y_test : List ℚ) (y_pred : List (List ℚ))
    (hrow : ∀ r ∈ y_pred, r.length = 1)
    (hlen : y_pred.length = y_test.length) :
    testScore y_test y_pred = scoreByExample y_test y_pred := by
  simp only [testScore, scoreByExample]
  rw [flatten_singleton_rows y_pred hrow,
    List.zipWith_map_right y_test y_pred (fun r => npRound r.headI)
      (fun a b => if a = b then (1 : ℚ) else 0)]
  rw [List.length_zipWith, hlen, min_self]

/-- Witness for C8 at a concrete test batch. -/
theorem testScore_eq_scoreByExample_witness :
    testScore [1, 0, 1] [[9/10], [2/5], [1/4]] =
      scoreByExample [1, 0, 1] [[9/10], [2/5], [1/4]] :=
  testScore_eq_scoreByExample _ _ (by norm_num) (by norm_num)

/-! ## The model graph built by `CapsNet` (imdb_capsulenet.py lines 21-68)

The function wires library layers into a two-input/two-output graph; we
embed the graph as a record of layer descriptors. String-valued layer
options from the source are bound to named constants below. -/

def padValid : String := "valid"

def actRelu : String := "relu"

def actSigmoid : String := "sigmoid"

def nameLSTM : String := "LSTM"

def nameGRU : String := "GRU"

def nameCuDNNLSTM : String := "CuDNNLSTM"

def nameCuDNNGRU : String := "CuDNNGRU"

def lossMse : String := "mse"

def lossMarginName : String := "margin_loss"

/-- Descriptor of one Keras layer as configured by `CapsNet`. -/
inductive Layer where
  | input (shape : List ℕ)
  | embedding (inputDim outputDim inputLength : ℕ)
  | conv1d (filters kernelSize strides : ℕ) (padding activation : String)
  | lstm (units : ℕ)
  | gru (units : ℕ)
  | cuDNNLSTM (units : ℕ)
  | cuDNNGRU (units : ℕ)
  | dropout (rate : ℚ)
  | primaryCap (dimVector nChannels kernelSize strides : ℕ) (padding : String)
  | capsuleLayer (numCapsule dimVector : ℕ) (numRouting : ℤ)
  | lengthLayer
  | maskLayer
  | dense (units : ℕ) (activation : String)
deriving DecidableEq

/-- The directed acyclic graph assembled by `CapsNet`, field by field in
source order: sequence input, embedding, conv1, the optional recurrent
stack with its dropout, primary capsules, digit capsules, the length
output, the label input, the mask, and the three-layer decoder. -/
structure ModelGraph where
  seqInput : Layer
  embed : Layer
  conv1 : Layer
  featureStack : List Layer
  primarycaps : Layer
  digitcaps : Layer
  out_caps : Layer
  labelInput : Layer
  masked : Layer
  decoder : List Layer
deriving DecidableEq

/-- `CapsNet(input_shape, n_class, num_routing, model)`: the graph built by
the source. Note that `input_shape` is accepted but never read — the input
layer is `Input(shape=(maxlen,))` and the embedding always uses
`max_features` and `embed_dim`. -/
def CapsNet (input_shape : List ℕ) (n_class : ℕ) (num_routing : ℤ)
    (model : Option String) : ModelGraph :=
  { seqInput := .input [maxlen]
    embed := .embedding max_features embed_dim maxlen
    conv1 := .conv1d 256 9 1 padValid actRelu
    featureStack :=
      if model = some nameLSTM then [.lstm 64, .dropout (2/10)]
      else if model = some nameGRU then [.gru 64, .dropout (2/10)]
      else if model = some nameCuDNNLSTM then [.cuDNNLSTM 64, .dropout (2/10)]
      else if model = some nameCuDNNGRU then [.cuDNNGRU 64, .dropout (2/10)]
      else [.dropout (2/10)]
    primarycaps := .primaryCap 8 32 9 2 padValid
    digitcaps := .capsuleLayer n_class 16 num_routing
    out_caps := .lengthLayer
    labelInput := .input [n_class]
    masked := .maskLayer
    decoder := [.dense 512 actRelu, .dense 1024 actRelu, .dense maxlen actSigmoid] }

/-- C9: `input_shape` has no effect on the built graph — two calls differing
only in `input_shape` build identical models, whose token input length is
the module constant `maxlen = 400` and whose embedding vocabulary is
`max_features = 5000`. -/
theorem capsNet_ignores_input_shape (s₁ s₂ : List ℕ) (n_class : ℕ)
    (num_routing : ℤ) (model : Option String) :
    CapsNet s₁ n_class num_routing model = CapsNet s₂ n_class num_routing model ∧
      (CapsNet s₁ n_class num_routing model).seqInput = .input [400] ∧
      (CapsNet s₁ n_class num_routing model).embed = .embedding 5000 50 400 :=
  ⟨rfl, rfl, rfl⟩

/-! ## Training configuration (imdb_capsulenet.py lines 104-110)

`model.compile(..., loss=[margin_loss, 'mse'], loss_weights=[1., args.lam_recon], ...)`
`model.fit([x_train, y_train], [y_train, x_train], ...)` -/

/-- The loss list passed to `model.compile`, by name: the margin loss for
`out_caps` and mean-squared-error for the reconstruction output. -/
def trainLosses : List String := [lossMarginName, lossMse]

/-- The loss weights passed to `model.compile`. -/
def trainLossWeights (lam_recon : ℚ) : List ℚ := [1, lam_recon]

/-- The target list of `model.fit([x_train, y_train], [y_train, x_train], ...)`:
the first output is fitted against `y_train`, the second (reconstruction)
against `x_train` itself. -/
def trainFitTargets (x_train : List (List ℚ)) (y_train : List ℚ) :
    List ℚ × List (List ℚ) :=
  (y_train, x_train)

/-- The logistic sigmoid over ℚ, parametrized by the tensor engine's
exponential routine `e` (so that `sigmoid e x = 1 / (1 + e (-x))`). -/
def sigmoid (e : ℚ → ℚ) (x : ℚ) : ℚ := 1 / (1 + e (-x))

/-- C10: the reconstruction head is a sigmoid dense layer of width `maxlen`
whose outputs lie strictly between 0 and 1 (for any positive exponential),
yet its `mse` target is `x_train` itself — raw padded token ids in
[0, 5000) — with no normalization applied. -/
theorem recon_fitted_against_raw_tokens (x_train : List (List ℚ))
    (y_train : List ℚ) (e : ℚ → ℚ)
    (he : ∀ t, 0 < e t)
    (hx : ∀ r ∈ x_train, ∀ v ∈ r, 0 ≤ v ∧ v < 5000) :
    (trainFitTargets x_train y_train).2 = x_train ∧
      (∀ r ∈ (trainFitTargets x_train y_train).2, ∀ v ∈ r, 0 ≤ v ∧ v < 5000) ∧
      trainLosses = [lossMarginName, lossMse] ∧
      (∀ s n r m, (CapsNet s n r m).decoder.getLast? =
        some (.dense maxlen actSigmoid)) ∧
      (∀ x, 0 < sigmoid e x ∧ sigmoid e x < 1) := by
  refine ⟨rfl, hx, rfl, fun s n r m => rfl, fun x => ?_⟩
  have h := he (-x)
  constructor
  · exact div_pos one_pos (by linarith)
  · rw [sigmoid, div_lt_one (by linarith)]
    linarith

/-- Witness for C10 at a concrete training batch and exponential. -/
theorem recon_fitted_against_raw_tokens_witness :
    (trainFitTargets [[0, 4999]] [1]).2 = [[0, 4999]] ∧
      trainLosses = [lossMarginName, lossMse] ∧
      0 < sigmoid (fun _ => 1) 0 ∧ sigmoid (fun _ => 1) 0 < 1 :=
  have h := recon_fitted_against_raw_tokens [[0, 4999]] [1] (fun _ => 1)
    (fun _t => one_pos) (by norm_num)
  ⟨h.1, h.2.2.1, (h.2.2.2.2 0).1, (h.2.2.2.2 0).2⟩

/-! ## CapsuleLayer configuration validation (capsulelayers.py, not under src) -/

def reportBadRouting : String := "The num_routing should be > 0"

/-- Modelled from the spec: the `CapsuleLayer` class of `capsulelayers.py`
is not under `src/`. Per spec sections 4.3 and 7, a routing-iteration count
≤ 0 is a configuration error detected at graph-construction time, fatal and
not recoverable — embedded as the `Except.error` branch of layer
construction. -/
def buildCapsuleLayer (num_capsule dim_vector : ℕ) (num_routing : ℤ) :
    Except String Layer :=
  if num_routing ≤ 0 then .error reportBadRouting
  else .ok (.capsuleLayer num_capsule dim_vector num_routing)

/-- Graph construction including the spec-modelled CapsuleLayer validation:
building the digit-capsule layer with `num_routing ≤ 0` fails, and the
failure aborts construction of the whole model. -/
def buildCapsNet (input_shape : List ℕ) (n_class : ℕ) (num_routing : ℤ)
    (model : Option String) : Except String ModelGraph :=
  (buildCapsuleLayer n_class 16 num_routing).map
    (fun _ => CapsNet input_shape n_class num_routing model)

/-- C7: a routing-iteration count ≤ 0 is rejected at graph-construction
time (the build returns the configuration error), and any count ≥ 1 builds
the model; construction with `num_routing ≤ 0` never silently succeeds. -/
theorem capsnet_rejects_nonpositive_routing (s : List ℕ) (n : ℕ) (r : ℤ)
    (m : Option String) :
    (r ≤ 0 ↔ buildCapsNet s n r m = .error reportBadRouting) ∧
      (1 ≤ r → buildCapsNet s n r m = .ok (CapsNet s n r m)) := by
  constructor
  · constructor
    · intro hr
      simp [buildCapsNet, buildCapsuleLayer, hr, Except.map]
    · intro hb
      by_contra hr
      simp [buildCapsNet, buildCapsuleLayer, hr, Except.map] at hb
  · intro hr
    have hr0 : ¬ r ≤ 0 := by omega
    simp [buildCapsNet, buildCapsuleLayer, hr0, Except.map]

/-- Witness for C7: a concrete rejected build and a concrete accepted one. -/
theorem capsnet_rejects_nonpositive_routing_witness :
    buildCapsNet [] 1 (-2) none = .error reportBadRouting ∧
      buildCapsNet [] 1 3 none = .ok (CapsNet [] 1 3 none) :=
  ⟨(capsnet_rejects_nonpositive_routing [] 1 (-2) none).1.mp (by norm_num),
    (capsnet_rejects_nonpositive_routing [] 1 3 none).2 (by norm_num)⟩

/-! ## Squashing function (capsulelayers.py, not under src) -/

/-- Squared Euclidean norm of a vector embedded as a list. -/
def lenSq (v : List ℚ) : ℚ := (v.map (fun x => x * x)).sum

/-- Modelled from the spec: the squashing function of `capsulelayers.py` is
not under `src/`. Per spec section 4.1, `squash(v) = v * (‖v‖²/(1+‖v‖²))/‖v‖`
with a small ε > 0 added to `‖v‖²` before taking the square root and
dividing, so `‖v‖ = 0` causes no division by zero. The engine's square root
of `‖v‖² + ε` is passed in as `s` (so `s * s = lenSq v + eps`, `0 < s`). -/
def squash (eps s : ℚ) (v : List ℚ) : List ℚ :=
  v.map (fun x => lenSq v / ((1 + lenSq v) * s) * x)

lemma lenSq_nonneg (v : List ℚ) : 0 ≤ lenSq v := by
  induction v with
  | nil => simp [lenSq]
  | cons x t ih =>
      simp only [lenSq, List.map_cons, List.sum_cons] at ih ⊢
      have := mul_self_nonneg x
      linarith

lemma lenSq_map_mul (c : ℚ) (v : List ℚ) :
    lenSq (v.map (fun x => c * x)) = c ^ 2 * lenSq v := by
  induction v with
  | nil => simp [lenSq]
  | cons x t ih =>
      simp only [lenSq, List.map_cons, List.sum_cons, List.map_map] at ih ⊢
      rw [ih]
      ring

/-- C4: with the ε floor in place the denominator of `squash` never
vanishes, the squashed vector's norm lies in [0, 1), and the result is a
non-negative scalar multiple of `v` (parallel, same direction). -/
theorem squash_norm_lt_one_and_parallel (v : List ℚ) (eps s : ℚ)
    (heps : 0 < eps) (hs : 0 < s) (hsq : s * s = lenSq v + eps) :
    (1 + lenSq v) * s ≠ 0 ∧
      0 ≤ lenSq (squash eps s v) ∧
      lenSq (squash eps s v) < 1 ∧
      ∃ c, 0 ≤ c ∧ squash eps s v = v.map (fun x => c * x) := by
  have hN : 0 ≤ lenSq v := lenSq_nonneg v
  have hden : 0 < (1 + lenSq v) * s := by positivity
  refine ⟨ne_of_gt hden, ?_, ?_, ?_⟩
  · rw [squash, lenSq_map_mul]
    positivity
  · rw [squash, lenSq_map_mul, div_pow, div_mul_eq_mul_div,
      div_lt_one (by positivity)]
    have hs2 : s ^ 2 = lenSq v + eps := by rw [sq]; exact hsq
    have hexp : ((1 + lenSq v) * s) ^ 2 = (1 + lenSq v) ^ 2 * (lenSq v + eps) := by
      rw [mul_pow, hs2]
    rw [hexp]
    nlinarith [mul_nonneg hN hN, mul_nonneg (mul_nonneg hN hN) heps.le,
      mul_nonneg hN heps.le]
  · exact ⟨lenSq v / ((1 + lenSq v) * s), div_nonneg hN hden.le, rfl⟩

/-- Witness for C4 on the zero vector with ε = 1/4 (square root 1/2). -/
theorem squash_norm_lt_one_and_parallel_witness :
    (1 + lenSq [0]) * (1/2) ≠ 0 ∧
      0 ≤ lenSq (squash (1/4) (1/2) [0]) ∧
      lenSq (squash (1/4) (1/2) [0]) < 1 :=
  have h := squash_norm_lt_one_and_parallel [0] (1/4) (1/2)
    (by norm_num) (by norm_num) (by norm_num [lenSq])
  ⟨h.1, h.2.1, h.2.2.1⟩

/-! ## Masking / selection module (capsulelayers.py, not under src) -/

/-- Index of the first maximal entry of a list (0 on the empty list),
matching `K.argmax` which returns the first occurrence of the maximum. -/
def argmaxIdx : List ℚ → ℕ
  | [] => 0
  | [_] => 0
  | x :: y :: rest =>
      let j := argmaxIdx (y :: rest)
      if x < (y :: rest).getD j 0 then j + 1 else 0

/-- One-hot vector of length `xs.length` with the 1 at `argmaxIdx xs`. -/
def oneHotArgmax (xs : List ℚ) : List ℚ :=
  (List.range xs.length).map (fun i => if i = argmaxIdx xs then 1 else 0)

/-- Modelled from the spec: the `Mask` layer of `capsulelayers.py` is not
under `src/`. Per spec section 4.4, given a capsule tensor (one batch
element, `v : List (List ℚ)`) and either a ground-truth one-hot label or
nothing, it scales each capsule by its selector entry and flattens; with no
label it computes the one-hot of the argmax of the capsule lengths itself.
Capsule length is monotone in the squared length, so the argmax is taken
over `lenSq`, which keeps the computation inside ℚ. -/
def mask (v : List (List ℚ)) (label : Option (List ℚ)) : List ℚ :=
  let sel := match label with
    | some y => y
    | none => oneHotArgmax (v.map lenSq)
  (List.zipWith (fun yi cap => cap.map (fun x => yi * x)) sel v).flatten

/-- The claim's phrasing of the inference-mode output: keep the capsule at
the selected index, zero every other capsule's vector, and flatten. -/
def maskAtIndex (v : List (List ℚ)) (a : ℕ) : List ℚ :=
  (((List.range v.length).zip v).map
    (fun p => if p.1 = a then p.2 else p.2.map (fun _ => (0:ℚ)))).flatten

lemma zip_onehot_scale (a : ℕ) :
    ∀ (v : List (List ℚ)) (k : ℕ),
      List.zipWith (fun yi cap => cap.map (fun x => yi * x))
        ((List.range' k v.length).map (fun i => if i = a then (1:ℚ) else 0)) v =
      ((List.range' k v.length).zip v).map
        (fun p => if p.1 = a then p.2 else p.2.map (fun _ => (0:ℚ))) := by
  intro v
  induction v with
  | nil => intro k; simp
  | cons cap rest ih =>
      intro k
      simp only [List.length_cons, List.range'_succ, List.map_cons,
        List.zipWith_cons_cons, List.zip_cons_cons]
      rw [ih (k + 1)]
      by_cases hk : k = a
      · simp [hk]
      · simp [hk]

/-- C5: with no ground-truth label supplied, the Mask layer's output equals
the masking of the capsule tensor at the index of the largest capsule
length — all capsules except the length-argmax one are zeroed. -/
theorem mask_inference_selects_argmax (v : List (List ℚ)) :
    mask v none = maskAtIndex v (argmaxIdx (v.map lenSq)) := by
  unfold mask maskAtIndex oneHotArgmax
  simp only [List.length_map]
  rw [List.range_eq_range', zip_onehot_scale (argmaxIdx (v.map lenSq)) v 0]

/-! ## Dynamic routing engine (capsulelayers.py CapsuleLayer, not under src)

To express the stop-gradient clause of the routing update we embed scalars
as forward-mode dual numbers: `val` is the computed value and `der` the
derivative carried along through the computation; `detach` zeroes the
derivative, which is exactly what the engine's stop-gradient primitive
does. The engine's transcendental routines (the softmax exponential and
the square root inside squash) are taken as parameters, since they are
external collaborators of this repository. -/

/-- A forward-mode dual number over ℚ: a value and the derivative riding
along with it through the computation. -/
@[ext]
structure DQ where
  val : ℚ
  der : ℚ
deriving DecidableEq

namespace DQ

instance : Zero DQ := ⟨⟨0, 0⟩⟩

instance : One DQ := ⟨⟨1, 0⟩⟩

instance : Add DQ := ⟨fun a b => ⟨a.val + b.val, a.der + b.der⟩⟩

instance : Mul DQ := ⟨fun a b => ⟨a.val * b.val, a.val * b.der + a.der * b.val⟩⟩

instance : Div DQ :=
  ⟨fun a b => ⟨a.val / b.val, (a.der * b.val - a.val * b.der) / (b.val * b.val)⟩⟩

@[simp] lemma val_zero : (0 : DQ).val = 0 := rfl

@[simp] lemma der_zero : (0 : DQ).der = 0 := rfl

@[simp] lemma val_one : (1 : DQ).val = 1 := rfl

@[simp] lemma der_one : (1 : DQ).der = 0 := rfl

@[simp] lemma val_add (a b : DQ) : (a + b).val = a.val + b.val := rfl

@[simp] lemma der_add (a b : DQ) : (a + b).der = a.der + b.der := rfl

@[simp] lemma val_mul (a b : DQ) : (a * b).val = a.val * b.val := rfl

@[simp] lemma der_mul (a b : DQ) : (a * b).der = a.val * b.der + a.der * b.val := rfl

@[simp] lemma val_div (a b : DQ) : (a / b).val = a.val / b.val := rfl

@[simp] lemma der_div (a b : DQ) :
    (a / b).der = (a.der * b.val - a.val * b.der) / (b.val * b.val) := rfl

instance : AddCommMonoid DQ where
  add_assoc a b c := by ext <;> simp <;> ring
  zero_add a := by ext <;> simp
  add_zero a := by ext <;> simp
  add_comm a b := by ext <;> simp <;> ring
  nsmul := nsmulRec

/-- Value projection as an additive monoid morphism. -/
def valHom : DQ →+ ℚ :=
  { toFun := DQ.val, map_zero' := rfl, map_add' := fun _ _ => rfl }

/-- Derivative projection as an additive monoid morphism. -/
def derHom : DQ →+ ℚ :=
  { toFun := DQ.der, map_zero' := rfl, map_add' := fun _ _ => rfl }

lemma val_sum {ι : Type} (s : Finset ι) (f : ι → DQ) :
    (∑ i ∈ s, f i).val = ∑ i ∈ s, (f i).val :=
  map_sum valHom f s

lemma der_sum {ι : Type} (s : Finset ι) (f : ι → DQ) :
    (∑ i ∈ s, f i).der = ∑ i ∈ s, (f i).der :=
  map_sum derHom f s

/-- The stop-gradient primitive: keep the value, kill the derivative. -/
def detach (a : DQ) : DQ := ⟨a.val, 0⟩

@[simp] lemma der_detach (a : DQ) : (detach a).der = 0 := rfl

end DQ

/-- Modelled from the spec: the coupling coefficients of the routing
engine, `c[i,j] = softmax_j(b[i,j])` — the softmax taken over the
output-capsule axis, with the engine's exponential `e`. -/
def coupling {nI nJ : ℕ} (e : DQ → DQ) (b : Fin nI → Fin nJ → DQ)
    (i : Fin nI) (j : Fin nJ) : DQ :=
  e (b i j) / ∑ j', e (b i j')

/-- Modelled from the spec: `s[j] = Σ_i c[i,j] * u_hat[i,j]`, the weighted
sum per output capsule. -/
def weightedSum {nI nJ d : ℕ} (e : DQ → DQ)
    (u_hat : Fin nI → Fin nJ → Fin d → DQ) (b : Fin nI → Fin nJ → DQ)
    (j : Fin nJ) : Fin d → DQ :=
  fun k => ∑ i, coupling e b i j * u_hat i j k

/-- Squared norm of a capsule vector over dual numbers. -/
def normSqD {d : ℕ} (v : Fin d → DQ) : DQ := ∑ k, v k * v k

/-- Modelled from the spec: the squashing function of section 4.1 applied
inside routing, over dual numbers, with the engine square root `sq` of
`‖v‖² + eps`. -/
def squashD {d : ℕ} (sq : DQ → DQ) (eps : DQ) (v : Fin d → DQ) : Fin d → DQ :=
  fun k => normSqD v / ((1 + normSqD v) * sq (normSqD v + eps)) * v k

/-- `v[j] = squash(s[j])`: the candidate output capsules for one iteration. -/
def capsOut {nI nJ d : ℕ} (e sq : DQ → DQ) (eps : DQ)
    (u_hat : Fin nI → Fin nJ → Fin d → DQ) (b : Fin nI → Fin nJ → DQ)
    (j : Fin nJ) : Fin d → DQ :=
  squashD sq eps (weightedSum e u_hat b j)

/-- Dot product of two capsule vectors over dual numbers. -/
def dotD {d : ℕ} (x y : Fin d → DQ) : DQ := ∑ k, x k * y k

/-- Modelled from the spec: the agreement update applied on every routing
iteration except the last, `b[i,j] += u_hat[i,j] · v[j]`, with the added
term excluded from the gradient path by `detach`. -/
def agreementStep {nI nJ d : ℕ} (e sq : DQ → DQ) (eps : DQ)
    (u_hat : Fin nI → Fin nJ → Fin d → DQ) (b : Fin nI → Fin nJ → DQ) :
    Fin nI → Fin nJ → DQ :=
  fun i j => b i j + DQ.detach (dotD (u_hat i j) (capsOut e sq eps u_hat b j))

/-- Modelled from the spec: the routing loop, the iteration count as fuel.
Each iteration computes coupling coefficients, weighted sums and squashed
outputs from the current logits; every iteration except the last then
applies the agreement update. There is no early stopping and no
convergence check. (Fuel 0, never reached from a valid configuration,
returns the outputs of the initial logits.) -/
def routingLoop {nI nJ d : ℕ} (e sq : DQ → DQ) (eps : DQ)
    (u_hat : Fin nI → Fin nJ → Fin d → DQ) :
    ℕ → (Fin nI → Fin nJ → DQ) → Fin nJ → Fin d → DQ
  | 0, b => capsOut e sq eps u_hat b
  | 1, b => capsOut e sq eps u_hat b
  | n + 2, b => routingLoop e sq eps u_hat (n + 1) (agreementStep e sq eps u_hat b)

/-- Modelled from the spec: dynamic routing — initialize all routing logits
`b[i,j] = 0` and run the loop for exactly `num_routing` iterations. -/
def routing {nI nJ d : ℕ} (e sq : DQ → DQ) (eps : DQ)
    (u_hat : Fin nI → Fin nJ → Fin d → DQ) (num_routing : ℕ) :
    Fin nJ → Fin d → DQ :=
  routingLoop e sq eps u_hat num_routing (fun _ _ => 0)

/-- The sequence of routing logits: `b₀ = 0`, then `t` agreement updates. -/
def logitSeq {nI nJ d : ℕ} (e sq : DQ → DQ) (eps : DQ)
    (u_hat : Fin nI → Fin nJ → Fin d → DQ) : ℕ → Fin nI → Fin nJ → DQ
  | 0 => fun _ _ => 0
  | t + 1 => agreementStep e sq eps u_hat (logitSeq e sq eps u_hat t)

lemma routingLoop_succ_eq {nI nJ d : ℕ} (e sq : DQ → DQ) (eps : DQ)
    (u_hat : Fin nI → Fin nJ → Fin d → DQ) :
    ∀ (m : ℕ) (b : Fin nI → Fin nJ → DQ),
      routingLoop e sq eps u_hat (m + 1) b =
        capsOut e sq eps u_hat ((agreementStep e sq eps u_hat)^[m] b) := by
  intro m
  induction m with
  | zero => intro b; rfl
  | succ m ih =>
      intro b
      rw [show m + 1 + 1 = m + 2 from rfl]
      rw [routingLoop, ih (agreementStep e sq eps u_hat b),
        ← Function.iterate_succ_apply]

lemma logitSeq_eq_iterate {nI nJ d : ℕ} (e sq : DQ → DQ) (eps : DQ)
    (u_hat : Fin nI → Fin nJ → Fin d → DQ) (t : ℕ) :
    logitSeq e sq eps u_hat t =
      (agreementStep e sq eps u_hat)^[t] (fun _ _ => 0) := by
  induction t with
  | zero => rfl
  | succ t ih => rw [logitSeq, ih, Function.iterate_succ_apply']

/-- C1: the routing engine starts from zero logits, runs its
softmax/weighted-sum/squash loop exactly `num_routing` times with no
early stopping (its output is the capsule output of the logits after
`num_routing - 1` agreement updates), applies the agreement update
`b[i,j] += u_hat[i,j] · v[j]` on every iteration except the last, and
keeps that update out of the gradient path: the logits carry zero
derivative at every iteration, whatever derivatives `u_hat` carries. -/
theorem routing_loop_structure {nI nJ d : ℕ} (e sq : DQ → DQ) (eps : DQ)
    (u_hat : Fin nI → Fin nJ → Fin d → DQ) (n : ℕ) (hn : 1 ≤ n) :
    routing e sq eps u_hat n =
        capsOut e sq eps u_hat (logitSeq e sq eps u_hat (n - 1)) ∧
      logitSeq e sq eps u_hat 0 = (fun _ _ => 0) ∧
      (∀ t i j, (logitSeq e sq eps u_hat t i j).der = 0) ∧
      (∀ t i j, logitSeq e sq eps u_hat (t + 1) i j =
        logitSeq e sq eps u_hat t i j +
          DQ.detach (dotD (u_hat i j)
            (capsOut e sq eps u_hat (logitSeq e sq eps u_hat t) j))) := by
  refine ⟨?_, rfl, ?_, fun t i j => rfl⟩
  · obtain ⟨m, rfl⟩ : ∃ m, n = m + 1 := ⟨n - 1, (Nat.succ_pred_eq_of_pos hn).symm⟩
    rw [routing, routingLoop_succ_eq, Nat.add_sub_cancel, logitSeq_eq_iterate]
  · intro t
    induction t with
    | zero => intro i j; simp [logitSeq]
    | succ t ih =>
        intro i j
        simp [logitSeq, agreementStep, ih i j]

/-- Concrete exponential / square-root routine for witnesses. -/
def oneE : DQ → DQ := fun _ => 1

/-- Concrete prediction tensor for witnesses. -/
def oneU : Fin 1 → Fin 1 → Fin 1 → DQ := fun _ _ _ => 1

/-- Witness for C1 at a one-capsule configuration with one iteration. -/
theorem routing_loop_structure_witness :
    routing oneE oneE 0 oneU 1 0 0 =
        capsOut oneE oneE 0 oneU (logitSeq oneE oneE 0 oneU 0) 0 0 ∧
      logitSeq oneE oneE 0 oneU 0 0 0 = 0 ∧
      (logitSeq oneE oneE 0 oneU 3 0 0).der = 0 :=
  have h := routing_loop_structure oneE oneE 0 oneU 1 (le_refl 1)
  ⟨congrFun (congrFun h.1 0) 0, congrFun (congrFun h.2.1 0) 0, h.2.2.1 3 0 0⟩

lemma coupling_sum_eq_one {nI nJ : ℕ} (e : DQ → DQ)
    (hpos : ∀ x, 0 < (e x).val) (hJ : 0 < nJ)
    (b : Fin nI → Fin nJ → DQ) (i : Fin nI) :
    (∑ j, coupling e b i j) = 1 := by
  have hne : Nonempty (Fin nJ) := ⟨⟨0, hJ⟩⟩
  have hSval : 0 < (∑ j', e (b i j')).val := by
    rw [DQ.val_sum]
    exact Finset.sum_pos (fun j _ => hpos _) Finset.univ_nonempty
  ext
  · rw [DQ.val_sum]
    simp only [coupling, DQ.val_div]
    rw [← Finset.sum_div, ← DQ.val_sum, div_self (ne_of_gt hSval)]
    rfl
  · rw [DQ.der_sum]
    simp only [coupling, DQ.der_div]
    rw [← Finset.sum_div]
    have hnum : (∑ j, ((e (b i j)).der * (∑ j', e (b i j')).val -
        (e (b i j)).val * (∑ j', e (b i j')).der)) = 0 := by
      rw [Finset.sum_sub_distrib, ← Finset.sum_mul, ← Finset.sum_mul,
        ← DQ.val_sum, ← DQ.der_sum]
      ring
    rw [hnum, zero_div]
    rfl

/-- C3: at every routing iteration, the coupling coefficients computed from
the current logits are non-negative and sum to 1 across the output-capsule
axis for every input capsule — a softmax distribution over output
capsules. (Dual-number equality with 1 also says the distribution property
carries zero derivative.) -/
theorem coupling_is_distribution {nI nJ d : ℕ} (e sq : DQ → DQ) (eps : DQ)
    (u_hat : Fin nI → Fin nJ → Fin d → DQ)
    (hJ : 0 < nJ) (hpos : ∀ x, 0 < (e x).val) :
    ∀ (t : ℕ) (i : Fin nI),
      (∑ j, coupling e (logitSeq e sq eps u_hat t) i j) = 1 ∧
        ∀ j, 0 ≤ (coupling e (logitSeq e sq eps u_hat t) i j).val := by
  intro t i
  refine ⟨coupling_sum_eq_one e hpos hJ _ i, fun j => ?_⟩
  have hne : Nonempty (Fin nJ) := ⟨⟨0, hJ⟩⟩
  have hSval : 0 < (∑ j', e (logitSeq e sq eps u_hat t i j')).val := by
    rw [DQ.val_sum]
    exact Finset.sum_pos (fun j' _ => hpos _) Finset.univ_nonempty
  rw [coupling, DQ.val_div]
  exact (div_pos (hpos _) hSval).le

/-- Witness for C3 at a one-capsule configuration, iteration 2. -/
theorem coupling_is_distribution_witness :
    (∑ j, coupling oneE (logitSeq oneE oneE 0 oneU 2) 0 j) = 1 ∧
      0 ≤ (coupling oneE (logitSeq oneE oneE 0 oneU 2) 0 0).val :=
  have h := coupling_is_distribution oneE oneE 0 oneU (by norm_num)
    (fun x => by simp [oneE])
  ⟨(h 2 0).1, (h 2 0).2 0⟩

end ImdbCapsnet
